import Mathlib

/-!
Verification development for the rolling 24h average engine of the
ttc-leaderboard repository (file `api/avg24h.ts`).

Modelling conventions of the shallow embedding:

- JavaScript numbers are modelled exactly: a `JNum` is either one of the
  non-finite values NaN, +Infinity, -Infinity, or a finite value carried as a
  rational number.  Floating point rounding is out of scope; all finite
  arithmetic is exact.  Timestamps flowing through the engine are always
  finite (they come from `Date.now()`, from `toBucketMs`, or from `asNumber`,
  all of which only produce finite values), so sample timestamps are carried
  directly as rationals.
- Rational arithmetic is written with kernel-computable wrappers
  (`qadd`, `qmul`, `qsub`, `qdiv`, `qmax`, `qmin`, `qfloor`) so that concrete
  runs of the engine can be evaluated by `decide`; the bridge lemmas
  (`qadd_eq` and friends) rewrite them to the ordinary Mathlib operations for
  the symbolic proofs.
- JavaScript strings are modelled abstractly by `JStr`: a string is either
  the JSON serialization of a JSON value (`jsonOf v`, on which `JSON.parse`
  succeeds and returns `v`), the empty string, or an unparsed non-JSON string
  (`junk k`).  `String(x)` of a finite number is `jsonOf` of that numeral;
  `String(null)` is the JSON text "null"; `String(NaN)` and
  `String(Infinity)` are non-JSON strings (`junk`), whose `Number(...)`
  re-parse is non-finite and hence rejected by `asNumber` exactly as in the
  source.
- JSON values (`JVal`) model what `JSON.parse` can return plus `undefined`;
  objects only expose their `t` and `v` fields because `parseSamples` reads
  nothing else.
- The key-value store is a function from string keys to optionally stored
  strings.  `KvSpec` injects failures: a flagged operation throws (modelled
  as `Except.error ()`), mirroring a rejected promise of the kv client.
-/

/-! ### Kernel-computable rational arithmetic -/

/-- Addition on rationals, kernel-computable (the library addition is
irreducible). -/
def qadd (a b : ℚ) : ℚ := mkRat (a.num * b.den + b.num * a.den) (a.den * b.den)

/-- Multiplication on rationals, kernel-computable. -/
def qmul (a b : ℚ) : ℚ := mkRat (a.num * b.num) (a.den * b.den)

/-- Subtraction on rationals, kernel-computable. -/
def qsub (a b : ℚ) : ℚ := mkRat (a.num * b.den - b.num * a.den) (a.den * b.den)

/-- Inverse on rationals, kernel-computable. -/
def qinv (a : ℚ) : ℚ := Rat.divInt a.den a.num

/-- Division on rationals, kernel-computable. -/
def qdiv (a b : ℚ) : ℚ := qmul a (qinv b)

/-- Maximum of two rationals, as `Math.max` on ordinary numbers. -/
def qmax (a b : ℚ) : ℚ := if a ≤ b then b else a

/-- Minimum of two rationals, as `Math.min` on ordinary numbers. -/
def qmin (a b : ℚ) : ℚ := if a ≤ b then a else b

/-- Floor of a rational, kernel-computable. -/
def qfloor (q : ℚ) : ℤ := q.num / q.den

/-- Ceiling of a rational, kernel-computable. -/
def qceil (q : ℚ) : ℤ := -qfloor (qsub 0 q)

theorem qadd_eq (a b : ℚ) : qadd a b = a + b := (Rat.add_def' a b).symm

theorem qmul_eq (a b : ℚ) : qmul a b = a * b := by
  rw [Rat.mul_def, Rat.normalize_eq_mkRat]; rfl

theorem qsub_eq (a b : ℚ) : qsub a b = a - b := (Rat.sub_def' a b).symm

theorem qinv_eq (a : ℚ) : qinv a = a⁻¹ := by
  rw [Rat.inv_def', qinv]

theorem qdiv_eq (a b : ℚ) : qdiv a b = a / b := by
  rw [qdiv, qmul_eq, qinv_eq, div_eq_mul_inv]

theorem qmax_eq (a b : ℚ) : qmax a b = max a b := (max_def a b).symm

theorem qmin_eq (a b : ℚ) : qmin a b = min a b := (min_def a b).symm

theorem qfloor_eq (q : ℚ) : qfloor q = ⌊q⌋ := by
  rw [Rat.floor_def]; rfl

theorem qceil_eq (q : ℚ) : qceil q = ⌈q⌉ := by
  rw [qceil, qfloor_eq, qsub_eq, zero_sub, Int.floor_neg, neg_neg]

/-- JavaScript `Math.round`: round half toward positive infinity. -/
def jsRound (q : ℚ) : ℤ := qfloor (qadd q (mkRat 1 2))

theorem jsRound_eq (q : ℚ) : jsRound q = ⌊q + 1 / 2⌋ := by
  rw [jsRound, qfloor_eq, qadd_eq]
  norm_num

/-! ### JavaScript numbers, JSON values and strings -/

/-- A JavaScript number: NaN, one of the infinities, or a finite value
modelled as an exact rational. -/
inductive JNum where
  | nan : JNum
  | inf : JNum
  | ninf : JNum
  | num (q : ℚ) : JNum
deriving DecidableEq

/-- JavaScript `Number.isFinite`. -/
def JNum.isFinite : JNum → Bool
  | .num _ => true
  | _ => false

/-- JavaScript addition on numbers. -/
def JNum.add : JNum → JNum → JNum
  | .nan, _ => .nan
  | _, .nan => .nan
  | .inf, .ninf => .nan
  | .ninf, .inf => .nan
  | .inf, _ => .inf
  | _, .inf => .inf
  | .ninf, _ => .ninf
  | _, .ninf => .ninf
  | .num a, .num b => .num (qadd a b)

/-- JavaScript multiplication of a number by a finite number. -/
def JNum.mulQ : JNum → ℚ → JNum
  | .nan, _ => .nan
  | .inf, q => if 0 < q then .inf else if q < 0 then .ninf else .nan
  | .ninf, q => if 0 < q then .ninf else if q < 0 then .inf else .nan
  | .num a, q => .num (qmul a q)

/-- JavaScript division of a number by a finite number. -/
def JNum.divQ : JNum → ℚ → JNum
  | .nan, _ => .nan
  | .inf, q => if q < 0 then .ninf else .inf
  | .ninf, q => if q < 0 then .inf else .ninf
  | .num a, q =>
    if q = 0 then (if a = 0 then .nan else if 0 < a then .inf else .ninf)
    else .num (qdiv a q)

mutual

/-- A JSON-like runtime value: everything `parseSamples` can receive, either
directly or as the result of `JSON.parse`.  Objects expose only their `t` and
`v` fields (`none` models an absent field) since the source reads nothing
else. -/
inductive JVal where
  | null : JVal
  | undef : JVal
  | bool (b : Bool) : JVal
  | num (n : JNum) : JVal
  | str (s : JStr) : JVal
  | arr (xs : List JVal) : JVal
  | obj (t : Option JVal) (v : Option JVal) : JVal

/-- A JavaScript string, described by how `JSON.parse` and `Number` treat it:
`jsonOf v` is a (nonempty) string that is valid JSON denoting `v`; `empty` is
the empty string; `junk k` is a nonempty string that is not valid JSON and
not a numeral (so `Number` of it is NaN). -/
inductive JStr where
  | jsonOf (v : JVal) : JStr
  | empty : JStr
  | junk (k : Nat) : JStr

end

/-- JavaScript `Number(s)` for our abstract strings.  A string that is the
JSON text of a number re-parses to that number; the empty string coerces to
0; the JSON text of anything else ("null", "true", a quoted string, an array
or object literal) and every non-JSON junk string coerce to NaN.  (The
strings "Infinity" and "NaN" produced by `String(...)` of a non-finite number
are `junk`; real `Number("Infinity")` is Infinity rather than NaN, but both
are non-finite, and every consumer in the source immediately filters
non-finite values, so the observable behaviour agrees.) -/
def JStr.numberOf : JStr → JNum
  | .jsonOf (.num n) => n
  | .jsonOf _ => .nan
  | .empty => .num 0
  | .junk _ => .nan

/-- JavaScript truthiness of a value. -/
def JVal.falsy : JVal → Bool
  | .null => true
  | .undef => true
  | .bool b => !b
  | .num (.num q) => q = 0
  | .num .nan => true
  | .num _ => false
  | .str .empty => true
  | .str _ => false
  | .arr _ => false
  | .obj _ _ => false

/-! ### Engine constants (from the head of `api/avg24h.ts`) -/

/-- 24 hours in milliseconds (24 * 60 * 60 * 1000, written as a literal so
that the kernel can evaluate it). -/
def WINDOW_MS : ℚ := 86400000

/-- Sampling granularity: one minute in milliseconds (60 * 1000). -/
def SAMPLE_INTERVAL_MS : ℚ := 60000

/-- Hard cap on per-route history length:
`Math.ceil(WINDOW_MS / SAMPLE_INTERVAL_MS) + 2`. -/
def MAX_SAMPLES_PER_ROUTE : ℕ := (qceil (qdiv WINDOW_MS SAMPLE_INTERVAL_MS)).toNat + 2

/-- Chunk size for kv multi-gets. -/
def KV_MGET_CHUNK_SIZE : ℤ := 100

/-- Chunk size for kv write batches. -/
def KV_SET_OPS_PER_PIPELINE : ℤ := 200

/-- Key of the shared processing marker. -/
def KV_LAST_BUCKET_KEY : String := "ttc:avg24h:lastBucketMs"

/-- Key of the per-route sample history (`ttc:avg24h:samples:` + tag). -/
def sampleKey (routeTag : String) : String := "ttc:avg24h:samples:" ++ routeTag

/-- Key of the per-route cached average (`ttc:avg24h:avg:` + tag). -/
def avgKey (routeTag : String) : String := "ttc:avg24h:avg:" ++ routeTag

/-! ### Data model -/

/-- A live reading supplied to a refresh call. -/
structure LiveRouteSample where
  routeTag : String
  liveSpeedKmh : JNum
deriving DecidableEq

/-- A stored speed sample: timestamp (ms since epoch, always finite, hence a
plain rational) and speed (km/h, an arbitrary JavaScript number). -/
structure Sample where
  t : ℚ
  v : JNum
deriving DecidableEq

/-- `toBucketMs`: quantize a timestamp to the start of its minute bucket. -/
def toBucketMs (nowMs : ℚ) : ℚ :=
  qmul ((qfloor (qdiv nowMs SAMPLE_INTERVAL_MS) : ℤ) : ℚ) SAMPLE_INTERVAL_MS

/-- `asNumber`: accept a finite number, or a string whose `Number(...)`
coercion is finite; anything else gives `null` (`none`). -/
def asNumber : JVal → Option ℚ
  | .num (.num q) => some q
  | .num _ => none
  | .str s =>
    match s.numberOf with
    | .num q => some q
    | _ => none
  | _ => none

/-- One entry of a decoded sample array: a `[t, v]` tuple (current encoding)
or a `{ t, v }` object (legacy encoding); both coordinates must pass
`asNumber`.  Anything else is dropped by `parseSamples`. -/
def itemToSample : JVal → Option Sample
  | .arr xs =>
    match asNumber (xs.getD 0 .undef), asNumber (xs.getD 1 .undef) with
    | some t, some v => some ⟨t, .num v⟩
    | _, _ => none
  | .obj t? v? =>
    match asNumber (t?.getD .undef), asNumber (v?.getD .undef) with
    | some t, some v => some ⟨t, .num v⟩
    | _, _ => none
  | _ => none

/-- `parseSamples`: tolerant decoding of a stored history.  Falsy input and
non-JSON strings give the empty history; a JSON string is parsed first; a
non-array gives the empty history; array entries are decoded by
`itemToSample`, silently dropping the ones that fail. -/
def parseSamples (raw : JVal) : List Sample :=
  if raw.falsy then []
  else
    match raw with
    | .str (.jsonOf v) =>
      match v with
      | .arr items => items.filterMap itemToSample
      | _ => []
    | .str _ => []
    | .arr items => items.filterMap itemToSample
    | _ => []

/-- `JSON.stringify` of one number inside an array: non-finite numbers
serialize as `null`. -/
def jnumToJson : JNum → JVal
  | .num q => .num (.num q)
  | _ => .null

/-- `serializeSamples`: compact encoding as a JSON array of `[t, v]`
tuples. -/
def serializeSamples (samples : List Sample) : JStr :=
  .jsonOf (.arr (samples.map fun s => .arr [.num (.num s.t), jnumToJson s.v]))

/-! ### Sorting by timestamp

The source sorts with `Array.prototype.sort((a, b) => a.t - b.t)`, a stable
sort ascending by `t`; since a stable sort is extensionally unique, it is
modelled by insertion sort on the (total, transitive) relation `tLE`. -/

/-- Comparison by timestamp. -/
def tLE (a b : Sample) : Prop := a.t ≤ b.t

instance : DecidableRel tLE := fun a b => inferInstanceAs (Decidable (a.t ≤ b.t))

instance : IsTotal Sample tLE := ⟨fun a b => le_total a.t b.t⟩

instance : IsTrans Sample tLE := ⟨fun _ _ _ h h2 => le_trans h h2⟩

/-- Stable ascending sort by timestamp. -/
def sortByT (l : List Sample) : List Sample := List.insertionSort tLE l

/-- `trimAndUpsert`: drop out-of-window and non-finite entries, replace any
entry in the new sample's bucket, append the new sample, re-sort, and cap the
length.  (`Number.isFinite(s.t)` from the source is always true here because
timestamps are modelled as rationals.) -/
def trimAndUpsert (samples : List Sample) (cutoffMs : ℚ) (sample : Sample) : List Sample :=
  let kept := samples.filter fun s => s.v.isFinite && decide (cutoffMs ≤ s.t)
  let withoutBucket := kept.filter fun s => decide (s.t ≠ sample.t)
  let sorted := sortByT (withoutBucket ++ [sample])
  if MAX_SAMPLES_PER_ROUTE < sorted.length then
    sorted.drop (sorted.length - MAX_SAMPLES_PER_ROUTE)
  else sorted

/-- End of the representative interval of sample `s`:
`min(now, nextT, s.t + SAMPLE_INTERVAL_MS)`, where `nextT` is the next
sample's timestamp (`rest.head?`), or absent (positive infinity) for the last
sample. -/
def intervalEndT (nowMs : ℚ) (s : Sample) (rest : List Sample) : ℚ :=
  match rest.head? with
  | none => qmin nowMs (qadd s.t SAMPLE_INTERVAL_MS)
  | some s2 => qmin nowMs (qmin s2.t (qadd s.t SAMPLE_INTERVAL_MS))

/-- The accumulation loop of `compute24hAvgKmh` over the sorted history: for
each sample, its representative interval runs from `max(t, cutoff)` to
`intervalEndT`; non-positive intervals are skipped, positive ones accumulate
speed-times-duration and duration. -/
def avgFold (nowMs cutoffMs : ℚ) : List Sample → JNum → ℚ → JNum × ℚ
  | [], ws, tw => (ws, tw)
  | s :: rest, ws, tw =>
    let start := qmax s.t cutoffMs
    if nowMs < start then avgFold nowMs cutoffMs rest ws tw
    else
      let dur := qsub (intervalEndT nowMs s rest) start
      if dur ≤ 0 then avgFold nowMs cutoffMs rest ws tw
      else avgFold nowMs cutoffMs rest (ws.add (s.v.mulQ dur)) (qadd tw dur)

/-- `compute24hAvgKmh`: time-weighted average over the window, `null` when
the history is empty or no positive-duration interval survives. -/
def compute24hAvgKmh (samples : List Sample) (nowMs cutoffMs : ℚ) : Option JNum :=
  if samples.length = 0 then none
  else
    let p := avgFold nowMs cutoffMs (sortByT samples) (.num 0) 0
    if p.2 ≤ 0 then none else some (p.1.divQ p.2)

/-- `round1` on the rational part: `Math.round(n * 10) / 10`. -/
def round1Q (q : ℚ) : ℚ := qdiv ((jsRound (qmul q 10) : ℤ) : ℚ) 10

/-- `round1` on a JavaScript number (`Math.round` preserves NaN and the
infinities). -/
def round1 : JNum → JNum
  | .nan => .nan
  | .inf => .inf
  | .ninf => .ninf
  | .num q => .num (round1Q q)

/-! ### The key-value store -/

/-- The store contents: string values per string key.  `set` accepts only
strings, so the store holds `JStr`. -/
def Store : Type := String → Option JStr

/-- Failure injection for the kv client: a flagged operation rejects, which
the engine source does not catch.  `hasPipeline` records whether the client
exposes `pipeline()`. -/
structure KvSpec where
  getFails : String → Bool
  mgetFails : List String → Bool
  setFails : String → Bool
  hasPipeline : Bool
  pipelineExecFails : Bool

/-- What a read returns for one key: the stored string, or `null` when the
key is absent. -/
def readVal (st : Store) (k : String) : JVal :=
  match st k with
  | some s => .str s
  | none => .null

/-- `client.get`. -/
def kvGet (spec : KvSpec) (k : String) (st : Store) : Except Unit JVal :=
  if spec.getFails k then .error () else .ok (readVal st k)

/-- `client.mget`, one batched request for a list of keys. -/
def kvMget (spec : KvSpec) (ks : List String) (st : Store) : Except Unit (List JVal) :=
  if spec.mgetFails ks then .error () else .ok (ks.map (readVal st))

/-- Point update of the store. -/
def updateStore (st : Store) (k : String) (v : JStr) : Store :=
  fun q => if q = k then some v else st q

/-- `client.set`. -/
def kvSet (spec : KvSpec) (k : String) (v : JStr) (st : Store) : Except Unit Store :=
  if spec.setFails k then .error () else .ok (updateStore st k v)

/-- The slicing loop of `chunk`, with explicit fuel (the loop advances by
`size ≥ 1` positions per iteration, so `fuel = items.length` suffices). -/
def chunkFuel (size : ℕ) : ℕ → List α → List (List α)
  | _, [] => []
  | 0, _ :: _ => []
  | fuel + 1, x :: xs => (x :: xs).take size :: chunkFuel size fuel ((x :: xs).drop size)

/-- `chunk(items, size)`: split into consecutive slices of `size`; a
non-positive size returns the whole list as a single chunk. -/
def chunk (items : List α) (size : ℤ) : List (List α) :=
  if size ≤ 0 then [items] else chunkFuel size.toNat items.length items

/-- The loop of `mgetChunked`: one `mget` per chunk, concatenating results in
order. -/
def mgetChunkedGo (spec : KvSpec) (st : Store) : List (List String) → Except Unit (List JVal)
  | [] => .ok []
  | part :: rest =>
    match kvMget spec part st with
    | .error e => .error e
    | .ok vs =>
      match mgetChunkedGo spec st rest with
      | .error e => .error e
      | .ok vs2 => .ok (vs ++ vs2)

/-- `mgetChunked`: an empty key list short-circuits; otherwise multi-get in
chunks of `KV_MGET_CHUNK_SIZE`. -/
def mgetChunked (spec : KvSpec) (keys : List String) (st : Store) : Except Unit (List JVal) :=
  if keys.length = 0 then .ok []
  else mgetChunkedGo spec st (chunk keys KV_MGET_CHUNK_SIZE)

/-- Queueing the sets of one pipeline chunk (pure: `p.set` only records the
write; `exec` sends the batch). -/
def applyPart (st : Store) (part : List (String × JStr)) : Store :=
  part.foldl (fun acc kv => updateStore acc kv.1 kv.2) st

/-- Pipeline branch of `setManyChunked`: per chunk, queue all sets and
`exec`; a failing `exec` rejects. -/
def pipelineChunks (spec : KvSpec) : List (List (String × JStr)) → Store → Except Unit Store
  | [], st => .ok st
  | part :: rest, st =>
    if spec.pipelineExecFails then .error ()
    else pipelineChunks spec rest (applyPart st part)

/-- Fallback branch of `setManyChunked`: per chunk, issue the individual
`set` calls (the source awaits them together with `Promise.all`; the model
applies them in order, stopping at the first rejection). -/
def setSeq (spec : KvSpec) : List (String × JStr) → Store → Except Unit Store
  | [], st => .ok st
  | kv :: rest, st =>
    match kvSet spec kv.1 kv.2 st with
    | .error e => .error e
    | .ok st2 => setSeq spec rest st2

/-- Chunk loop of the fallback branch. -/
def setChunks (spec : KvSpec) : List (List (String × JStr)) → Store → Except Unit Store
  | [], st => .ok st
  | part :: rest, st =>
    match setSeq spec part st with
    | .error e => .error e
    | .ok st2 => setChunks spec rest st2

/-- `setManyChunked`: no-op for no writes; otherwise write in chunks of
`KV_SET_OPS_PER_PIPELINE`, through a pipeline when the client has one. -/
def setManyChunked (spec : KvSpec) (kvSets : List (String × JStr)) (st : Store) :
    Except Unit Store :=
  if kvSets.length = 0 then .ok st
  else if spec.hasPipeline then pipelineChunks spec (chunk kvSets KV_SET_OPS_PER_PIPELINE) st
  else setChunks spec (chunk kvSets KV_SET_OPS_PER_PIPELINE) st

/-! ### The refresh coordinator -/

/-- `[...new Set(tags)]`: first occurrences in order.  `seen` accumulates the
elements already emitted. -/
def dedupAcc (seen : List String) : List String → List String
  | [] => []
  | x :: xs => if x ∈ seen then dedupAcc seen xs else x :: dedupAcc (x :: seen) xs

/-- The `liveByTag` map: for each tag the last matching reading wins (later
`Map.set` calls overwrite earlier ones). -/
def liveByTag : List LiveRouteSample → String → Option JNum
  | [], _ => none
  | r :: rest, tag =>
    match liveByTag rest tag with
    | some v => some v
    | none => if r.routeTag = tag then some r.liveSpeedKmh else none

/-- `String(out[tag])` as stored under the avg key: `"null"` for null, the
numeral for a finite number, a non-JSON string ("NaN", "Infinity",
"-Infinity") for a non-finite one. -/
def strOfOut : Option JNum → JStr
  | none => .jsonOf .null
  | some (.num q) => .jsonOf (.num (.num q))
  | some _ => .junk 0

/-- Per-route body of the recompute loop: decode the stored history, upsert
the fresh sample, compute the average.  Returns the rounded output value and
the new history. -/
def routeStage (raw : JVal) (live : JNum) (bucketMs cutoffMs nowMs : ℚ) :
    Option JNum × List Sample :=
  let prevSamples := parseSamples raw
  let nextSamples := trimAndUpsert prevSamples cutoffMs ⟨bucketMs, live⟩
  let avg := compute24hAvgKmh nextSamples nowMs cutoffMs
  (avg.map round1, nextSamples)

/-- The recompute loop over `routeTags` and the batched `existing` reads
(`existing[i]` is `undefined` past the end, as in JavaScript).  Returns the
output map in tag order and the staged writes (history then average, per
route). -/
def recomputeGo (liveBy : String → Option JNum) (bucketMs cutoffMs nowMs : ℚ) :
    List String → List JVal → List (String × Option JNum) × List (String × JStr)
  | [], _ => ([], [])
  | tag :: ts, vs =>
    let rest := recomputeGo liveBy bucketMs cutoffMs nowMs ts vs.tail
    match liveBy tag with
    | none => ((tag, none) :: rest.1, rest.2)
    | some live =>
      let stage := routeStage (vs.headD .undef) live bucketMs cutoffMs nowMs
      ((tag, stage.1) :: rest.1,
        (sampleKey tag, serializeSamples stage.2) :: (avgKey tag, strOfOut stage.1) :: rest.2)

/-- One value of the cached-average path: accepted through `asNumber` and
re-rounded (`v === null ? null : round1(v)`). -/
def roundVal (v : JVal) : Option JNum :=
  match asNumber v with
  | none => none
  | some q => some (.num (round1Q q))

/-- The cached-average path: one batched read of the avg keys, each value
accepted through `asNumber` and re-rounded. -/
def cachedOut : List String → List JVal → List (String × Option JNum)
  | [], _ => []
  | tag :: ts, vs => (tag, roundVal (vs.headD .undef)) :: cachedOut ts vs.tail

/-- `getAvg24hSpeedsByRouteTag`: one refresh call.  Reads the processing
marker, dedups the requested routes, then either serves the cached averages
(same bucket) or recomputes and persists histories, averages and the marker.
Store operation failures are not caught here: they propagate as
`Except.error`. -/
def getAvg24hSpeedsByRouteTag (spec : KvSpec) (liveRoutes : List LiveRouteSample)
    (nowMs : ℚ) (st : Store) :
    Except Unit (List (String × Option JNum) × Store) :=
  let bucketMs := toBucketMs nowMs
  let cutoffMs := qsub nowMs WINDOW_MS
  match kvGet spec KV_LAST_BUCKET_KEY st with
  | .error e => .error e
  | .ok lastBucketRaw =>
    let lastBucketMs := asNumber lastBucketRaw
    let routeTags := dedupAcc [] (liveRoutes.map LiveRouteSample.routeTag)
    if routeTags.length = 0 then .ok ([], st)
    else if lastBucketMs = some bucketMs then
      match mgetChunked spec (routeTags.map avgKey) st with
      | .error e => .error e
      | .ok values => .ok (cachedOut routeTags values, st)
    else
      match mgetChunked spec (routeTags.map sampleKey) st with
      | .error e => .error e
      | .ok existing =>
        let stage := recomputeGo (liveByTag liveRoutes) bucketMs cutoffMs nowMs routeTags existing
        match setManyChunked spec stage.2 st with
        | .error e => .error e
        | .ok st2 =>
          match kvSet spec KV_LAST_BUCKET_KEY (.jsonOf (.num (.num bucketMs))) st2 with
          | .error e => .error e
          | .ok st3 => .ok (stage.1, st3)

/-! ### Basic facts about the aggregator -/

theorem intervalEndT_le (now : ℚ) (s : Sample) (rest : List Sample) :
    intervalEndT now s rest ≤ s.t + SAMPLE_INTERVAL_MS := by
  cases h : rest.head? with
  | none =>
    simp only [intervalEndT, h, qmin_eq, qadd_eq]
    exact min_le_right _ _
  | some s2 =>
    simp only [intervalEndT, h, qmin_eq, qadd_eq]
    exact le_trans (min_le_right _ _) (min_le_right _ _)

theorem avgFold_noContrib (now cutoff : ℚ) :
    ∀ (l : List Sample) (ws : JNum) (tw : ℚ),
      (∀ s ∈ l, s.t + SAMPLE_INTERVAL_MS ≤ cutoff ∨ now < s.t) →
      avgFold now cutoff l ws tw = (ws, tw)
  | [], _, _, _ => rfl
  | s :: rest, ws, tw, h => by
    have hs := h s (List.mem_cons_self s rest)
    have hrest := fun x hx => h x (List.mem_cons_of_mem s hx)
    simp only [avgFold]
    by_cases hlt : now < qmax s.t cutoff
    · rw [if_pos hlt]
      exact avgFold_noContrib now cutoff rest ws tw hrest
    · rw [if_neg hlt]
      have hdur : qsub (intervalEndT now s rest) (qmax s.t cutoff) ≤ 0 := by
        rcases hs with hc | hn
        · have h1 := intervalEndT_le now s rest
          have h2 : cutoff ≤ qmax s.t cutoff := by
            rw [qmax_eq]; exact le_max_right _ _
          rw [qsub_eq]
          linarith
        · exact absurd (lt_of_lt_of_le hn (by rw [qmax_eq]; exact le_max_left _ _)) hlt
      rw [if_pos hdur]
      exact avgFold_noContrib now cutoff rest ws tw hrest

theorem mem_sortByT {l : List Sample} {x : Sample} : x ∈ sortByT l ↔ x ∈ l :=
  List.mem_insertionSort tLE

/-- Shared single-sample evaluation: a lone sample whose representative
interval reaches `now` yields exactly its own speed. -/
theorem compute24hAvgKmh_single (t v now cutoff : ℚ) (hc : cutoff ≤ t) (h1 : t < now)
    (h2 : now < t + SAMPLE_INTERVAL_MS) :
    compute24hAvgKmh [⟨t, .num v⟩] now cutoff = some (.num v) := by
  have hne : ¬ ([⟨t, .num v⟩] : List Sample).length = 0 := by simp
  have hsort : sortByT [⟨t, .num v⟩] = [⟨t, .num v⟩] := rfl
  rw [compute24hAvgKmh, if_neg hne, hsort]
  simp only [avgFold]
  have hstart : qmax (Sample.mk t (.num v)).t cutoff = t := by
    rw [qmax_eq]; exact max_eq_left hc
  rw [hstart, if_neg (not_lt.2 h1.le)]
  have hend : intervalEndT now ⟨t, .num v⟩ [] = now := by
    simp only [intervalEndT, List.head?, qmin_eq, qadd_eq]
    exact min_eq_left h2.le
  rw [hend]
  have hdurpos : ¬ qsub now t ≤ 0 := by
    rw [qsub_eq]; linarith
  rw [if_neg hdurpos]
  simp only [avgFold, JNum.mulQ, JNum.add]
  have htw : qadd 0 (qsub now t) = now - t := by
    rw [qadd_eq, qsub_eq, zero_add]
  have hws : qadd 0 (qmul v (qsub now t)) = v * (now - t) := by
    rw [qadd_eq, qmul_eq, qsub_eq, zero_add]
  rw [htw, hws]
  have hpos : (0 : ℚ) < now - t := by linarith
  rw [if_neg (not_le.2 hpos)]
  simp only [JNum.divQ, if_neg (ne_of_gt hpos)]
  rw [qdiv_eq, mul_div_cancel_right₀ v (ne_of_gt hpos)]

/-! ### Claim C3 -/

/-- C3 (amended): for a history in which every sample either ends before the
cutoff (`t + SAMPLE_INTERVAL_MS ≤ cutoff`) or starts after `now`
(`now < t`), `compute24hAvgKmh` returns null.  (The original claim, with
every timestamp merely outside `[cutoff, now]`, is false: a sample less than
one interval before the cutoff still contributes its overlap with the
window; see the counterexample.) -/
theorem compute24hAvgKmh_no_window_overlap_null (samples : List Sample) (now cutoff : ℚ)
    (h : ∀ s ∈ samples, s.t + SAMPLE_INTERVAL_MS ≤ cutoff ∨ now < s.t) :
    compute24hAvgKmh samples now cutoff = none := by
  by_cases hs : samples.length = 0
  · simp [compute24hAvgKmh, hs]
  · rw [compute24hAvgKmh, if_neg hs]
    have hfold := avgFold_noContrib now cutoff (sortByT samples) (.num 0) 0
      (fun s hs' => h s (mem_sortByT.mp hs'))
    simp only [hfold]
    norm_num

/-- C3 witness: a concrete history strictly left of the cutoff and a
concrete future sample yield null. -/
theorem compute24hAvgKmh_no_window_overlap_null_witness :
    compute24hAvgKmh [⟨0, .num 10⟩, ⟨900000, .num 5⟩] 800000 700000 = none :=
  compute24hAvgKmh_no_window_overlap_null _ _ _ (by
    intro s hs
    simp only [List.mem_cons, List.not_mem_nil, or_false] at hs
    rcases hs with h | h
    · subst h; left; norm_num [SAMPLE_INTERVAL_MS]
    · subst h; right; norm_num)

/-- C3 counterexample: the history `[(t = 49999, v = 10)]` is entirely
outside `[cutoff, now] = [50000, 100000]` (its only timestamp is below the
cutoff), yet the aggregator returns 10, not null: the sample's representative
interval `[50000, 109999]` overlaps the window. -/
theorem compute24hAvgKmh_before_cutoff_contributes :
    compute24hAvgKmh [⟨49999, .num 10⟩] 100000 50000 = some (.num 10) ∧
    (49999 : ℚ) < 50000 := by
  constructor
  · decide
  · decide

/-! ### Claim C6 -/

/-- C6 (amended): a single sample at `t` with `0 < now − t < intervalMs` and
`cutoff = now − windowMs` yields an average exactly equal to the sample's
speed.  (The original claim, quantifying over every `now` with
`now − t < intervalMs`, is false at `now = t`, where the representative
interval is empty and the aggregator returns null; see the
counterexample.) -/
theorem compute24hAvgKmh_single_recent (t v now : ℚ) (h1 : 0 < now - t)
    (h2 : now - t < SAMPLE_INTERVAL_MS) :
    compute24hAvgKmh [⟨t, .num v⟩] now (now - WINDOW_MS) = some (.num v) := by
  apply compute24hAvgKmh_single
  · have hIW : (SAMPLE_INTERVAL_MS : ℚ) ≤ WINDOW_MS := by
      norm_num [SAMPLE_INTERVAL_MS, WINDOW_MS]
    linarith
  · linarith
  · linarith

/-- C6 witness: sample at 0 with speed 7, `now = 30000`. -/
theorem compute24hAvgKmh_single_recent_witness :
    compute24hAvgKmh [⟨0, .num 7⟩] 30000 (30000 - WINDOW_MS) = some (.num 7) :=
  compute24hAvgKmh_single_recent 0 7 30000 (by norm_num)
    (by norm_num [SAMPLE_INTERVAL_MS])

/-- C6 counterexample: at `now = t` (which satisfies the claim's premise
`now − t < intervalMs`) the aggregator returns null, not the sample's speed:
the representative interval has zero duration. -/
theorem compute24hAvgKmh_at_sample_time_null :
    compute24hAvgKmh [⟨60000, .num 7⟩] 60000 (-86340000) = none ∧
    (60000 : ℚ) - 60000 < SAMPLE_INTERVAL_MS ∧
    (-86340000 : ℚ) = 60000 - WINDOW_MS := by
  refine ⟨by decide, by norm_num [SAMPLE_INTERVAL_MS], by norm_num [WINDOW_MS]⟩

/-! ### Claim C4 -/

theorem sortByT_sorted (l : List Sample) : List.Sorted tLE (sortByT l) :=
  List.sorted_insertionSort tLE l

theorem sortByT_perm (l : List Sample) : List.Perm (sortByT l) l :=
  List.perm_insertionSort tLE l

/-- Sorting a list with pairwise-distinct timestamps yields a strictly
increasing list. -/
theorem sortByT_pairwise_lt (l : List Sample) (h : (l.map Sample.t).Nodup) :
    List.Pairwise (fun a b => a.t < b.t) (sortByT l) := by
  have hnd : ((sortByT l).map Sample.t).Nodup :=
    (((sortByT_perm l).map Sample.t).nodup_iff).mpr h
  have hne : List.Pairwise (fun a b : Sample => a.t ≠ b.t) (sortByT l) :=
    List.pairwise_map.mp hnd
  have hle : List.Pairwise tLE (sortByT l) := sortByT_sorted l
  exact (hle.and hne).imp fun hab => lt_of_le_of_ne hab.1 hab.2

/-- C4 (amended): for every input history with pairwise-distinct timestamps
(the invariant the store maintains), every cutoff and every new sample, the
output of `trimAndUpsert` is strictly ascending by timestamp (hence has no
duplicate timestamps) and has length at most `MAX_SAMPLES_PER_ROUTE`.  (The
original claim, over arbitrary input histories, is false: duplicate
timestamps already present in the input and different from the new sample's
bucket are kept; see the counterexample.  The length bound and sortedness
hold unconditionally.) -/
theorem trimAndUpsert_invariants (samples : List Sample) (cutoffMs : ℚ) (sample : Sample)
    (h : (samples.map Sample.t).Nodup) :
    List.Pairwise (fun a b => a.t < b.t) (trimAndUpsert samples cutoffMs sample) ∧
    (trimAndUpsert samples cutoffMs sample).length ≤ MAX_SAMPLES_PER_ROUTE := by
  have hwb_sub :
      List.Sublist
        ((samples.filter fun s => s.v.isFinite && decide (cutoffMs ≤ s.t)).filter
          fun s => decide (s.t ≠ sample.t)) samples :=
    (List.filter_sublist _).trans (List.filter_sublist _)
  have hnd_wb :
      (((samples.filter fun s => s.v.isFinite && decide (cutoffMs ≤ s.t)).filter
        fun s => decide (s.t ≠ sample.t)).map Sample.t).Nodup :=
    List.Nodup.sublist (hwb_sub.map Sample.t) h
  have hnotmem :
      sample.t ∉ ((samples.filter fun s => s.v.isFinite && decide (cutoffMs ≤ s.t)).filter
        fun s => decide (s.t ≠ sample.t)).map Sample.t := by
    intro hm
    obtain ⟨s, hsmem, hst⟩ := List.mem_map.mp hm
    have hs2 := List.of_mem_filter hsmem
    simp only [decide_eq_true_eq] at hs2
    exact hs2 hst
  have hnd_push :
      ((((samples.filter fun s => s.v.isFinite && decide (cutoffMs ≤ s.t)).filter
        fun s => decide (s.t ≠ sample.t)) ++ [sample]).map Sample.t).Nodup := by
    rw [List.map_append]
    refine List.Nodup.append hnd_wb (List.nodup_singleton _) ?_
    intro a ha hb
    simp only [List.map_cons, List.map_nil, List.mem_singleton] at hb
    exact hnotmem (hb ▸ ha)
  have hlt := sortByT_pairwise_lt _ hnd_push
  constructor
  · simp only [trimAndUpsert]
    split
    · exact hlt.sublist (List.drop_sublist _ _)
    · exact hlt
  · simp only [trimAndUpsert]
    split
    · rename_i hgt
      rw [List.length_drop]
      omega
    · rename_i hgt
      omega

/-- C4 witness: a well-formed one-sample history stays strictly sorted and
within the cap after an upsert. -/
theorem trimAndUpsert_invariants_witness :
    List.Pairwise (fun a b => a.t < b.t) (trimAndUpsert [⟨0, .num 5⟩] 0 ⟨60000, .num 6⟩) ∧
    (trimAndUpsert [⟨0, .num 5⟩] 0 ⟨60000, .num 6⟩).length ≤ MAX_SAMPLES_PER_ROUTE :=
  trimAndUpsert_invariants [⟨0, .num 5⟩] 0 ⟨60000, .num 6⟩ (by decide)

/-- C4 counterexample: an input history that already contains two entries
with timestamp 5 keeps both (the upsert only dedups the new sample's own
bucket), so the output has a duplicate timestamp, refuting the claim for
arbitrary input histories. -/
theorem trimAndUpsert_keeps_duplicate_timestamps :
    (trimAndUpsert [⟨5, .num 1⟩, ⟨5, .num 2⟩] 0 ⟨10, .num 3⟩).map Sample.t = [5, 5, 10] ∧
    ¬ ((trimAndUpsert [⟨5, .num 1⟩, ⟨5, .num 2⟩] 0 ⟨10, .num 3⟩).map Sample.t).Nodup := by
  constructor
  · decide
  · decide

/-! ### Claim C7 -/

/-- Whether a JSON value is an array. -/
def JVal.isArr : JVal → Bool
  | .arr _ => true
  | _ => false

theorem parseSamples_serializeSamples :
    ∀ l : List Sample, (∀ s ∈ l, s.v.isFinite = true) →
      parseSamples (.str (serializeSamples l)) = l
  | [], _ => rfl
  | s :: rest, h => by
    have hfin := h s (List.mem_cons_self s rest)
    have ih := parseSamples_serializeSamples rest fun x hx => h x (List.mem_cons_of_mem s hx)
    obtain ⟨st, sv⟩ := s
    cases sv with
    | num q =>
      show ((((⟨st, .num q⟩ : Sample) :: rest).map fun s =>
          JVal.arr [.num (.num s.t), jnumToJson s.v]).filterMap itemToSample) = _
      rw [List.map_cons, List.filterMap_cons]
      show (⟨st, .num q⟩ : Sample) ::
          ((rest.map fun s => JVal.arr [.num (.num s.t), jnumToJson s.v]).filterMap
            itemToSample) = _
      exact congrArg (List.cons _) ih
    | nan => simp [JNum.isFinite] at hfin
    | inf => simp [JNum.isFinite] at hfin
    | ninf => simp [JNum.isFinite] at hfin

theorem parseSamples_nonArray (v : JVal) (h : v.isArr = false) :
    parseSamples (.str (.jsonOf v)) = [] := by
  cases v <;> first | rfl | simp [JVal.isArr] at h

/-- C7: decoding inverts encoding — for histories with finite speeds (and
timestamps, which the model carries as rationals), `parseSamples` of
`serializeSamples` returns the history unchanged — and decoding is total on
malformed input: a non-JSON string, the empty string, or JSON that is not an
array decode to the empty list, and an array decodes entry by entry,
dropping exactly the entries `itemToSample` rejects (those that are not a
tuple or `{t, v}` object of two values passing `asNumber`). -/
theorem parseSamples_serializeSamples_roundtrip :
    (∀ l : List Sample, (∀ s ∈ l, s.v.isFinite = true) →
        parseSamples (.str (serializeSamples l)) = l) ∧
    (∀ k, parseSamples (.str (.junk k)) = []) ∧
    parseSamples (.str .empty) = [] ∧
    (∀ v : JVal, v.isArr = false → parseSamples (.str (.jsonOf v)) = []) ∧
    (∀ items : List JVal,
        parseSamples (.str (.jsonOf (.arr items))) = items.filterMap itemToSample) :=
  ⟨parseSamples_serializeSamples, fun _ => rfl, rfl, parseSamples_nonArray, fun _ => rfl⟩

/-- C7 witness: a concrete two-sample history round-trips, and a concrete
non-array JSON value decodes to the empty list. -/
theorem parseSamples_serializeSamples_roundtrip_witness :
    parseSamples (.str (serializeSamples [⟨1, .num 2⟩, ⟨3, .num 4⟩])) =
      [⟨1, .num 2⟩, ⟨3, .num 4⟩] ∧
    parseSamples (.str (.jsonOf (.bool true))) = [] :=
  ⟨parseSamples_serializeSamples_roundtrip.1 _ (by decide),
   parseSamples_serializeSamples_roundtrip.2.2.2.1 _ (by decide)⟩

/-! ### Concrete clients and stores for closed runs -/

/-- A kv client with no injected failures and no pipeline. -/
def specOk : KvSpec := ⟨fun _ => false, fun _ => false, fun _ => false, false, false⟩

/-- A kv client whose `get` always rejects. -/
def specAllGetFail : KvSpec := ⟨fun _ => true, fun _ => false, fun _ => false, false, false⟩

/-- The empty store. -/
def emptyStore : Store := fun _ => none

/-! ### Claim C1 -/

/-- C1 (amended): store errors are not caught inside
`getAvg24hSpeedsByRouteTag` — when the `get` of the processing marker (the
first store operation of every call) fails, the whole call fails, for every
reading batch, timestamp and store state; the error propagates to the
caller, which the source comments direct to degrade gracefully.  (The
original claim — that the function itself catches store errors and returns
an all-null map — is refuted by the counterexample.) -/
theorem getAvg24h_store_error_propagates (spec : KvSpec) (live : List LiveRouteSample)
    (now : ℚ) (st : Store) (h : spec.getFails KV_LAST_BUCKET_KEY = true) :
    getAvg24hSpeedsByRouteTag spec live now st = .error () := by
  simp [getAvg24hSpeedsByRouteTag, kvGet, h]

/-- C1 witness: the empty batch against an all-get-failing client. -/
theorem getAvg24h_store_error_propagates_witness :
    getAvg24hSpeedsByRouteTag specAllGetFail [] 0 emptyStore = .error () :=
  getAvg24h_store_error_propagates specAllGetFail [] 0 emptyStore rfl

/-- C1 counterexample: with a client whose `get` rejects, a refresh call for
one route returns an error — not a map with null for the requested route —
so the error does reach the caller. -/
theorem getAvg24h_marker_get_failure_errors :
    getAvg24hSpeedsByRouteTag specAllGetFail [⟨"A", .num 5⟩] 60001 emptyStore = .error () :=
  rfl

/-! ### Claim C8 -/

theorem chunkFuel_join {α : Type _} (size : ℕ) (hs : 0 < size) :
    ∀ (fuel : ℕ) (xs : List α), xs.length ≤ fuel → (chunkFuel size fuel xs).flatten = xs
  | fuel, [] => by cases fuel <;> intro _ <;> rfl
  | 0, x :: xs => by intro h; simp at h
  | fuel + 1, x :: xs => by
    intro h
    rw [chunkFuel, List.flatten_cons,
      chunkFuel_join size hs fuel ((x :: xs).drop size)
        (by rw [List.length_drop]; simp at h ⊢; omega)]
    exact List.take_append_drop size (x :: xs)

theorem chunk_join {α : Type _} (xs : List α) (size : ℤ) (h : 0 < size) :
    (chunk xs size).flatten = xs := by
  rw [chunk, if_neg (not_le.2 h)]
  exact chunkFuel_join size.toNat (by omega) _ _ le_rfl

theorem mgetChunkedGo_ok (spec : KvSpec) (st : Store)
    (h : ∀ ks, spec.mgetFails ks = false) :
    ∀ parts : List (List String),
      mgetChunkedGo spec st parts = .ok ((parts.flatten).map (readVal st))
  | [] => rfl
  | part :: rest => by
    simp [mgetChunkedGo, kvMget, h, mgetChunkedGo_ok spec st h rest, List.flatten_cons,
      List.map_append]

theorem mgetChunked_ok (spec : KvSpec) (keys : List String) (st : Store)
    (h : ∀ ks, spec.mgetFails ks = false) :
    mgetChunked spec keys st = .ok (keys.map (readVal st)) := by
  by_cases hk : keys.length = 0
  · rw [List.length_eq_zero] at hk
    subst hk; rfl
  · rw [mgetChunked, if_neg hk, mgetChunkedGo_ok spec st h,
      chunk_join keys KV_MGET_CHUNK_SIZE (by norm_num [KV_MGET_CHUNK_SIZE])]

/-- C8: when the store's `mget` does not fail, the chunked multi-get is
extensionally equal to one unchunked `mget` over the whole key list: it
returns the list of the stored values of the keys, in key order (so it has
the same length as the key list and its i-th element is the store's value
for the i-th key). -/
theorem mgetChunked_eq_single_mget (spec : KvSpec) (keys : List String) (st : Store)
    (h : ∀ ks, spec.mgetFails ks = false) :
    mgetChunked spec keys st = kvMget spec keys st ∧
    mgetChunked spec keys st = .ok (keys.map (readVal st)) := by
  have h2 := mgetChunked_ok spec keys st h
  refine ⟨?_, h2⟩
  rw [h2]
  simp [kvMget, h]

/-- C8 witness: two concrete keys against the failure-free client. -/
theorem mgetChunked_eq_single_mget_witness :
    mgetChunked specOk [sampleKey ("A"), sampleKey ("B")] emptyStore =
      kvMget specOk [sampleKey ("A"), sampleKey ("B")] emptyStore :=
  (mgetChunked_eq_single_mget specOk [sampleKey ("A"), sampleKey ("B")] emptyStore
    fun _ => rfl).1

/-! ### Claim C9 -/

/-- A kv client none of whose operations fail. -/
structure KvNoFail (spec : KvSpec) : Prop where
  get : ∀ k, spec.getFails k = false
  mget : ∀ ks, spec.mgetFails ks = false
  set : ∀ k, spec.setFails k = false
  pipe : spec.pipelineExecFails = false

theorem specOk_noFail : KvNoFail specOk :=
  ⟨fun _ => rfl, fun _ => rfl, fun _ => rfl, rfl⟩

theorem applyPart_append (st : Store) (a b : List (String × JStr)) :
    applyPart st (a ++ b) = applyPart (applyPart st a) b := by
  simp [applyPart, List.foldl_append]

theorem setSeq_ok (spec : KvSpec) (h : ∀ k, spec.setFails k = false) :
    ∀ (part : List (String × JStr)) (st : Store),
      setSeq spec part st = .ok (applyPart st part)
  | [], st => rfl
  | kv :: rest, st => by
    simp only [setSeq, kvSet, h, Bool.false_eq_true, if_false]
    rw [setSeq_ok spec h rest]
    rfl

theorem setChunks_ok (spec : KvSpec) (h : ∀ k, spec.setFails k = false) :
    ∀ (parts : List (List (String × JStr))) (st : Store),
      setChunks spec parts st = .ok (applyPart st parts.flatten)
  | [], st => rfl
  | part :: rest, st => by
    simp only [setChunks, setSeq_ok spec h part st]
    rw [setChunks_ok spec h rest, List.flatten_cons, applyPart_append]

theorem pipelineChunks_ok (spec : KvSpec) (h : spec.pipelineExecFails = false) :
    ∀ (parts : List (List (String × JStr))) (st : Store),
      pipelineChunks spec parts st = .ok (applyPart st parts.flatten)
  | [], st => rfl
  | part :: rest, st => by
    simp only [pipelineChunks, h, Bool.false_eq_true, if_false]
    rw [pipelineChunks_ok spec h rest, List.flatten_cons, applyPart_append]

theorem setManyChunked_ok (spec : KvSpec) (sets : List (String × JStr)) (st : Store)
    (hset : ∀ k, spec.setFails k = false) (hexec : spec.pipelineExecFails = false) :
    setManyChunked spec sets st = .ok (applyPart st sets) := by
  by_cases hs : sets.length = 0
  · rw [List.length_eq_zero] at hs
    subst hs; rfl
  · rw [setManyChunked, if_neg hs]
    by_cases hp : spec.hasPipeline
    · rw [if_pos hp, pipelineChunks_ok spec hexec,
        chunk_join sets KV_SET_OPS_PER_PIPELINE (by norm_num [KV_SET_OPS_PER_PIPELINE])]
    · rw [if_neg hp, setChunks_ok spec hset,
        chunk_join sets KV_SET_OPS_PER_PIPELINE (by norm_num [KV_SET_OPS_PER_PIPELINE])]

/-- Whether an `Except` result is a success. -/
def exceptOk {ε α : Type _} : Except ε α → Bool
  | .ok _ => true
  | .error _ => false

/-- Totality of one refresh call against a non-failing store: the call
always returns a result map. -/
theorem getAvg24h_total_aux (spec : KvSpec) (live : List LiveRouteSample) (now : ℚ)
    (st : Store) (h : KvNoFail spec) :
    exceptOk (getAvg24hSpeedsByRouteTag spec live now st) = true := by
  rw [getAvg24hSpeedsByRouteTag]
  have hm := fun ks => mgetChunked_ok spec ks st h.mget
  have hsm := fun sets => setManyChunked_ok spec sets st h.set h.pipe
  simp only [kvGet, h.get, Bool.false_eq_true, if_false, hm, hsm, kvSet, h.set]
  split
  · rfl
  · split
    · rfl
    · rfl

/-- C9: against a working store, `getAvg24hSpeedsByRouteTag` is total — it
returns a result map for every reading batch (including batches with NaN,
infinite or negative speeds), every timestamp, and every store content
(including histories holding such values): no input value can make it
crash. -/
theorem getAvg24h_never_crashes (spec : KvSpec) (live : List LiveRouteSample) (now : ℚ)
    (st : Store) (h : KvNoFail spec) :
    exceptOk (getAvg24hSpeedsByRouteTag spec live now st) = true :=
  getAvg24h_total_aux spec live now st h

/-- C9 witness: a batch with a NaN speed and a negative speed, against a
store holding a history with an infinite speed entry, still yields a result
map. -/
theorem getAvg24h_never_crashes_witness :
    exceptOk (getAvg24hSpeedsByRouteTag specOk
      [⟨"A", .nan⟩, ⟨"B", .num (-5)⟩, ⟨"C", .inf⟩] 60001
      (updateStore emptyStore (sampleKey ("A"))
        (.jsonOf (.arr [.arr [.num (.num 0), .num .inf]])))) = true :=
  getAvg24h_never_crashes specOk _ 60001 _ specOk_noFail

/-! ### Claim C10 -/

theorem cachedOut_fst : ∀ (tags : List String) (vs : List JVal),
    (cachedOut tags vs).map Prod.fst = tags
  | [], _ => rfl
  | tag :: ts, vs => by
    simp [cachedOut, cachedOut_fst ts]

theorem recomputeGo_fst (f : String → Option JNum) (b c n : ℚ) :
    ∀ (tags : List String) (vs : List JVal),
      ((recomputeGo f b c n tags vs).1).map Prod.fst = tags
  | [], _ => rfl
  | tag :: ts, vs => by
    rw [recomputeGo]
    cases f tag <;> simp [recomputeGo_fst f b c n ts]

/-- C10: whenever a refresh call returns a map, the key list of that map is
exactly the deduplicated route-tag list of the input batch (first
occurrences, in order) — in the empty-batch, cached-average, and recompute
paths alike; in particular an empty batch yields the empty map. -/
theorem getAvg24h_keys (spec : KvSpec) (live : List LiveRouteSample) (now : ℚ)
    (st : Store) (out : List (String × Option JNum)) (st2 : Store)
    (h : getAvg24hSpeedsByRouteTag spec live now st = .ok (out, st2)) :
    out.map Prod.fst = dedupAcc [] (live.map LiveRouteSample.routeTag) := by
  rw [getAvg24hSpeedsByRouteTag] at h
  cases hg : kvGet spec KV_LAST_BUCKET_KEY st with
  | error e => rw [hg] at h; cases h
  | ok lastRaw =>
    rw [hg] at h
    simp only [] at h
    split at h
    · rename_i hlen
      rw [List.length_eq_zero] at hlen
      injection h with h1
      injection h1 with h2 _
      rw [← h2, hlen]
      rfl
    · split at h
      · cases hm : mgetChunked spec ((dedupAcc [] (live.map LiveRouteSample.routeTag)).map avgKey) st with
        | error e => rw [hm] at h; cases h
        | ok values =>
          rw [hm] at h
          injection h with h1
          injection h1 with h2 _
          rw [← h2, cachedOut_fst]
      · cases hm : mgetChunked spec ((dedupAcc [] (live.map LiveRouteSample.routeTag)).map sampleKey) st with
        | error e => rw [hm] at h; cases h
        | ok existing =>
          rw [hm] at h
          simp only [] at h
          cases hs : setManyChunked spec
              (recomputeGo (liveByTag live) (toBucketMs now) (qsub now WINDOW_MS) now
                (dedupAcc [] (live.map LiveRouteSample.routeTag)) existing).2 st with
          | error e => rw [hs] at h; cases h
          | ok stw =>
            rw [hs] at h
            simp only [] at h
            cases hk : kvSet spec KV_LAST_BUCKET_KEY (.jsonOf (.num (.num (toBucketMs now)))) stw with
            | error e => rw [hk] at h; cases h
            | ok stw2 =>
              rw [hk] at h
              simp only [] at h
              injection h with h1
              injection h1 with h2 _
              rw [← h2, recomputeGo_fst]

/-- Key list of a successful run, empty for a failed one. -/
def outKeys (r : Except Unit (List (String × Option JNum) × Store)) : List String :=
  match r with
  | .ok (out, _) => out.map Prod.fst
  | .error _ => []

/-- C10 witness: a batch naming route A twice and route B once yields the
key list `[A, B]`. -/
theorem getAvg24h_keys_witness :
    outKeys (getAvg24hSpeedsByRouteTag specOk
      [⟨"A", .num 1⟩, ⟨"A", .num 2⟩, ⟨"B", .num 3⟩] 60001 emptyStore) = ["A", "B"] := by
  cases hg : getAvg24hSpeedsByRouteTag specOk
      [⟨"A", .num 1⟩, ⟨"A", .num 2⟩, ⟨"B", .num 3⟩] 60001 emptyStore with
  | error e =>
    have hok := getAvg24h_total_aux specOk
      [⟨"A", .num 1⟩, ⟨"A", .num 2⟩, ⟨"B", .num 3⟩] 60001 emptyStore specOk_noFail
    rw [hg] at hok
    exact absurd hok (by simp [exceptOk])
  | ok p =>
    obtain ⟨out, st2⟩ := p
    have hkeys := getAvg24h_keys specOk _ 60001 emptyStore out st2 hg
    simp only [outKeys, hg]
    rw [hkeys]
    rfl

/-! ### Claim C2 -/

theorem toBucketMs_le (now : ℚ) : toBucketMs now ≤ now := by
  rw [toBucketMs, qmul_eq, qfloor_eq, qdiv_eq]
  have hpos : (0 : ℚ) < SAMPLE_INTERVAL_MS := by norm_num [SAMPLE_INTERVAL_MS]
  have h := Int.floor_le (now / SAMPLE_INTERVAL_MS)
  have h2 := mul_le_mul_of_nonneg_right h hpos.le
  rwa [div_mul_cancel₀ now (ne_of_gt hpos)] at h2

theorem lt_toBucketMs_add (now : ℚ) : now < toBucketMs now + SAMPLE_INTERVAL_MS := by
  rw [toBucketMs, qmul_eq, qfloor_eq, qdiv_eq]
  have hpos : (0 : ℚ) < SAMPLE_INTERVAL_MS := by norm_num [SAMPLE_INTERVAL_MS]
  have h := Int.lt_floor_add_one (now / SAMPLE_INTERVAL_MS)
  have h2 := mul_lt_mul_of_pos_right h hpos
  rw [div_mul_cancel₀ now (ne_of_gt hpos)] at h2
  rw [add_mul, one_mul] at h2
  linarith

theorem MAX_SAMPLES_PER_ROUTE_val : MAX_SAMPLES_PER_ROUTE = 1442 := by decide

/-- The per-route stage on a stored value that decodes to no samples (an
absent key, a non-JSON string, non-array JSON, ...): the fresh sample is
inserted alone, and for a timestamp strictly inside its bucket the produced
average is exactly the (rounded) live speed. -/
theorem routeStage_empty_history (raw : JVal) (v now : ℚ)
    (hraw : parseSamples raw = []) (hnow : toBucketMs now < now) :
    (routeStage raw (.num v) (toBucketMs now) (qsub now WINDOW_MS) now).1 =
      some (.num (round1Q v)) := by
  have htrim : trimAndUpsert [] (qsub now WINDOW_MS) ⟨toBucketMs now, .num v⟩ =
      [⟨toBucketMs now, .num v⟩] := by
    rw [trimAndUpsert]
    simp [sortByT, List.insertionSort, List.orderedInsert, MAX_SAMPLES_PER_ROUTE_val]
  have hbolt := lt_toBucketMs_add now
  have hcut : qsub now WINDOW_MS ≤ toBucketMs now := by
    rw [qsub_eq]
    have hIW : (SAMPLE_INTERVAL_MS : ℚ) ≤ WINDOW_MS := by
      norm_num [SAMPLE_INTERVAL_MS, WINDOW_MS]
    linarith
  have havg := compute24hAvgKmh_single (toBucketMs now) v now (qsub now WINDOW_MS)
    hcut hnow hbolt
  rw [routeStage]
  simp only [hraw, htrim, havg]
  rfl

/-- Result map of a successful run. -/
def outOfRun (r : Except Unit (List (String × Option JNum) × Store)) :
    Option (List (String × Option JNum)) :=
  match r with
  | .ok (o, _) => some o
  | .error _ => none

/-- Store with an unreadable history for route A and a one-sample history
for route B. -/
def c2exStore : Store :=
  updateStore (updateStore emptyStore (sampleKey ("A")) (.junk 0))
    (sampleKey ("B")) (serializeSamples [⟨0, .num 20⟩])

/-- C2 counterexample: with route A's stored history unreadable and route B's
readable, the refresh returns 30 (A's live speed) for A — not null — and the
normally computed 20.0 for B, refuting the claim that the affected route
returns null. -/
theorem getAvg24h_unreadable_route_not_null :
    outOfRun (getAvg24hSpeedsByRouteTag specOk [⟨"A", .num 30⟩, ⟨"B", .num 25⟩]
        120001 c2exStore) =
      some [("A", some (.num 30)), ("B", some (.num 20))] := by
  decide

/-! ### Claim C5: store bookkeeping -/

/-- Last staged value for a key, if any (later entries win, as with
sequential `set` calls). -/
def findLastVal : List (String × JStr) → String → Option JStr
  | [], _ => none
  | kv :: rest, k =>
    match findLastVal rest k with
    | some v => some v
    | none => if k = kv.1 then some kv.2 else none

theorem applyPart_lookup : ∀ (sets : List (String × JStr)) (st : Store) (k : String),
    applyPart st sets k =
      (match findLastVal sets k with
       | some v => some v
       | none => st k)
  | [], _, _ => rfl
  | kv :: rest, st, k => by
    have hstep : applyPart st (kv :: rest) = applyPart (updateStore st kv.1 kv.2) rest := rfl
    rw [hstep, applyPart_lookup rest _ k, findLastVal]
    cases findLastVal rest k with
    | some v => rfl
    | none => by_cases hk : k = kv.1 <;> simp [updateStore, hk]

theorem findLastVal_append : ∀ (a b : List (String × JStr)) (k : String),
    findLastVal (a ++ b) k =
      (match findLastVal b k with
       | some v => some v
       | none => findLastVal a k)
  | [], b, k => by
    cases h : findLastVal b k <;> simp [findLastVal, h]
  | kv :: rest, b, k => by
    rw [List.cons_append, findLastVal, findLastVal_append rest b k, findLastVal]
    cases h1 : findLastVal b k <;> cases h2 : findLastVal rest k <;> simp [h1, h2]

theorem findLastVal_eq_none : ∀ (sets : List (String × JStr)) (k : String),
    (∀ kv ∈ sets, kv.1 ≠ k) → findLastVal sets k = none
  | [], _, _ => rfl
  | kv :: rest, k, h => by
    rw [findLastVal, findLastVal_eq_none rest k fun x hx => h x (List.mem_cons_of_mem kv hx)]
    simp only []
    rw [if_neg]
    exact fun he => h kv (List.mem_cons_self kv rest) he.symm

/-! ### Key family disjointness -/

theorem sampleKey_inj {a b : String} (h : sampleKey a = sampleKey b) : a = b := by
  have hd := congrArg String.data h
  have ha : (sampleKey a).data = "ttc:avg24h:samples:".data ++ a.data := rfl
  have hb : (sampleKey b).data = "ttc:avg24h:samples:".data ++ b.data := rfl
  rw [ha, hb] at hd
  have hdd := List.append_cancel_left hd
  obtain ⟨da⟩ := a
  obtain ⟨db⟩ := b
  exact congrArg String.mk (by simpa using hdd)

theorem avgKey_inj {a b : String} (h : avgKey a = avgKey b) : a = b := by
  have hd := congrArg String.data h
  have ha : (avgKey a).data = "ttc:avg24h:avg:".data ++ a.data := rfl
  have hb : (avgKey b).data = "ttc:avg24h:avg:".data ++ b.data := rfl
  rw [ha, hb] at hd
  have hdd := List.append_cancel_left hd
  obtain ⟨da⟩ := a
  obtain ⟨db⟩ := b
  exact congrArg String.mk (by simpa using hdd)

theorem avgKey_ne_sampleKey (a b : String) : avgKey a ≠ sampleKey b := by
  intro h
  have h1 : ((avgKey a).data)[11]? = some ('a') := rfl
  have h2 : ((sampleKey b).data)[11]? = some ('s') := rfl
  rw [h, h2] at h1
  cases h1

theorem avgKey_ne_lastKey (a : String) : avgKey a ≠ KV_LAST_BUCKET_KEY := by
  intro h
  have h1 : ((avgKey a).data)[11]? = some ('a') := rfl
  have h2 : (KV_LAST_BUCKET_KEY.data)[11]? = some ('l') := rfl
  rw [h, h2] at h1
  cases h1

theorem sampleKey_ne_lastKey (a : String) : sampleKey a ≠ KV_LAST_BUCKET_KEY := by
  intro h
  have h1 : ((sampleKey a).data)[11]? = some ('s') := rfl
  have h2 : (KV_LAST_BUCKET_KEY.data)[11]? = some ('l') := rfl
  rw [h, h2] at h1
  cases h1

/-! ### Dedup and live-map facts -/

theorem mem_dedupAcc : ∀ (l : List String) (seen : List String) (x : String),
    x ∈ dedupAcc seen l ↔ x ∈ l ∧ x ∉ seen
  | [], seen, x => by simp [dedupAcc]
  | y :: ys, seen, x => by
    rw [dedupAcc]
    by_cases hy : y ∈ seen
    · rw [if_pos hy, mem_dedupAcc ys seen x]
      constructor
      · exact fun h => ⟨List.mem_cons_of_mem y h.1, h.2⟩
      · rintro ⟨hmem, hns⟩
        rcases List.mem_cons.mp hmem with rfl | hmem2
        · exact absurd hy hns
        · exact ⟨hmem2, hns⟩
    · rw [if_neg hy]
      constructor
      · intro h
        rcases List.mem_cons.mp h with rfl | h2
        · exact ⟨List.mem_cons_self _ _, hy⟩
        · have := (mem_dedupAcc ys (y :: seen) x).mp h2
          refine ⟨List.mem_cons_of_mem y this.1, fun hs => this.2 (List.mem_cons_of_mem y hs)⟩
      · rintro ⟨hmem, hns⟩
        rcases List.mem_cons.mp hmem with rfl | hmem2
        · exact List.mem_cons_self _ _
        · by_cases hxy : x = y
          · subst hxy; exact List.mem_cons_self _ _
          · refine List.mem_cons_of_mem _ ((mem_dedupAcc ys (y :: seen) x).mpr ⟨hmem2, ?_⟩)
            intro hx
            rcases List.mem_cons.mp hx with h | h
            · exact hxy h
            · exact hns h

theorem dedupAcc_nodup : ∀ (l : List String) (seen : List String), (dedupAcc seen l).Nodup
  | [], _ => List.nodup_nil
  | y :: ys, seen => by
    rw [dedupAcc]
    by_cases hy : y ∈ seen
    · rw [if_pos hy]; exact dedupAcc_nodup ys seen
    · rw [if_neg hy]
      refine List.Nodup.cons ?_ (dedupAcc_nodup ys (y :: seen))
      intro hmem
      exact ((mem_dedupAcc ys (y :: seen) y).mp hmem).2 (List.mem_cons_self _ _)

theorem dedupAcc_nil_iff (l : List String) : dedupAcc [] l = [] ↔ l = [] := by
  cases l with
  | nil => simp [dedupAcc]
  | cons x xs => simp [dedupAcc]

theorem liveByTag_isSome_of_mem : ∀ (live : List LiveRouteSample) (tag : String),
    tag ∈ live.map LiveRouteSample.routeTag → ∃ x, liveByTag live tag = some x
  | [], tag, h => by simp at h
  | r :: rest, tag, h => by
    rw [liveByTag]
    cases hrec : liveByTag rest tag with
    | some v => exact ⟨v, rfl⟩
    | none =>
      rcases List.mem_cons.mp h with heq | hmem
      · exact ⟨r.liveSpeedKmh, by simp [heq.symm]⟩
      · obtain ⟨x, hx⟩ := liveByTag_isSome_of_mem rest tag hmem
        rw [hx] at hrec
        cases hrec

theorem liveByTag_finite : ∀ (live : List LiveRouteSample) (tag : String) (x : JNum),
    (∀ r ∈ live, r.liveSpeedKmh.isFinite = true) → liveByTag live tag = some x →
    x.isFinite = true
  | [], _, _, _, h => by cases h
  | r :: rest, tag, x, hall, h => by
    rw [liveByTag] at h
    cases hrec : liveByTag rest tag with
    | some v =>
      rw [hrec] at h
      injection h with h2
      rw [← h2]
      exact liveByTag_finite rest tag v (fun q hq => hall q (List.mem_cons_of_mem r hq)) hrec
    | none =>
      rw [hrec] at h
      by_cases ht : r.routeTag = tag
      · rw [if_pos ht] at h
        injection h with h2
        rw [← h2]
        exact hall r (List.mem_cons_self r rest)
      · rw [if_neg ht] at h
        cases h

/-! ### Finiteness of the recompute pipeline -/

theorem itemToSample_finite (item : JVal) (s : Sample) (h : itemToSample item = some s) :
    s.v.isFinite = true := by
  cases item with
  | arr xs =>
    rw [itemToSample] at h
    cases h1 : asNumber (xs.getD 0 .undef) <;> rw [h1] at h
    · cases h
    · cases h2 : asNumber (xs.getD 1 .undef) <;> rw [h2] at h
      · cases h
      · injection h with h3
        rw [← h3]
        rfl
  | obj t? v? =>
    rw [itemToSample] at h
    cases h1 : asNumber (t?.getD .undef) <;> rw [h1] at h
    · cases h
    · cases h2 : asNumber (v?.getD .undef) <;> rw [h2] at h
      · cases h
      · injection h with h3
        rw [← h3]
        rfl
  | null => cases h
  | undef => cases h
  | bool b => cases h
  | num n => cases h
  | str s2 => cases h

theorem parseSamples_finite (raw : JVal) (s : Sample) (h : s ∈ parseSamples raw) :
    s.v.isFinite = true := by
  have hmain : ∀ items : List JVal, s ∈ List.filterMap itemToSample items →
      s.v.isFinite = true := by
    intro items hmem
    obtain ⟨item, _, hit⟩ := List.mem_filterMap.mp hmem
    exact itemToSample_finite item s hit
  cases raw with
  | str s2 =>
    cases s2 with
    | jsonOf v =>
      cases v with
      | arr items =>
        rw [parseSamples] at h
        split at h
        · cases h
        · exact hmain items h
      | null => exact absurd h (by simp [parseSamples])
      | undef => exact absurd h (by simp [parseSamples])
      | bool b => exact absurd h (by simp [parseSamples])
      | num n => exact absurd h (by simp [parseSamples])
      | str s3 => exact absurd h (by simp [parseSamples])
      | obj t? v? => exact absurd h (by simp [parseSamples])
    | empty => exact absurd h (by simp [parseSamples])
    | junk k => exact absurd h (by simp [parseSamples])
  | arr items =>
    rw [parseSamples] at h
    split at h
    · cases h
    · exact hmain items h
  | null => exact absurd h (by simp [parseSamples])
  | undef => exact absurd h (by simp [parseSamples])
  | bool b => exact absurd h (by cases b <;> simp [parseSamples, JVal.falsy])
  | num n =>
    refine absurd h ?_
    cases n <;> simp [parseSamples, JVal.falsy]
  | obj t? v? => exact absurd h (by simp [parseSamples])

theorem trimAndUpsert_finite (samples : List Sample) (cutoffMs : ℚ) (sample : Sample)
    (hs : sample.v.isFinite = true) (s : Sample)
    (h : s ∈ trimAndUpsert samples cutoffMs sample) : s.v.isFinite = true := by
  rw [trimAndUpsert] at h
  have hmem : s ∈ sortByT
      (((samples.filter fun s => s.v.isFinite && decide (cutoffMs ≤ s.t)).filter
        fun s => decide (s.t ≠ sample.t)) ++ [sample]) := by
    split at h
    · exact (List.drop_sublist _ _).mem h
    · exact h
  have hmem2 := mem_sortByT.mp hmem
  rcases List.mem_append.mp hmem2 with hl | hr
  · have := List.of_mem_filter (List.mem_of_mem_filter hl)
    exact (Bool.and_eq_true _ _).mp this |>.1
  · rw [List.mem_singleton.mp hr]
    exact hs

theorem avgFold_finite (now cutoff : ℚ) :
    ∀ (l : List Sample) (w : ℚ) (tw : ℚ),
      (∀ s ∈ l, s.v.isFinite = true) →
      ∃ w', (avgFold now cutoff l (.num w) tw).1 = .num w'
  | [], w, tw, _ => ⟨w, rfl⟩
  | s :: rest, w, tw, h => by
    have hs := h s (List.mem_cons_self s rest)
    have hrest := fun x hx => h x (List.mem_cons_of_mem s hx)
    simp only [avgFold]
    split
    · exact avgFold_finite now cutoff rest w tw hrest
    · split
      · exact avgFold_finite now cutoff rest w tw hrest
      · cases hv : s.v with
        | num q =>
          simp only [JNum.mulQ, JNum.add]
          exact avgFold_finite now cutoff rest _ _ hrest
        | nan => rw [hv] at hs; cases hs
        | inf => rw [hv] at hs; cases hs
        | ninf => rw [hv] at hs; cases hs

theorem compute24hAvgKmh_shape (l : List Sample) (now cutoff : ℚ)
    (h : ∀ s ∈ l, s.v.isFinite = true) :
    compute24hAvgKmh l now cutoff = none ∨
    ∃ q, compute24hAvgKmh l now cutoff = some (.num q) := by
  rw [compute24hAvgKmh]
  split
  · exact Or.inl rfl
  · obtain ⟨w', hw⟩ := avgFold_finite now cutoff (sortByT l) 0 0
      fun s hs => h s (mem_sortByT.mp hs)
    dsimp only
    split
    · exact Or.inl rfl
    · rename_i htw
      right
      rw [hw]
      refine ⟨qdiv w' (avgFold now cutoff (sortByT l) (.num 0) 0).2, ?_⟩
      simp only [JNum.divQ]
      rw [if_neg]
      intro h0
      rw [h0] at htw
      exact htw le_rfl

theorem round1Q_idem (q : ℚ) : round1Q (round1Q q) = round1Q q := by
  rw [round1Q, round1Q, qdiv_eq, qdiv_eq, qmul_eq, qmul_eq, jsRound_eq, jsRound_eq]
  have h1 : (⌊q * 10 + 1 / 2⌋ : ℚ) / 10 * 10 = (⌊q * 10 + 1 / 2⌋ : ℚ) := by
    rw [div_mul_cancel₀]
    norm_num
  rw [h1]
  have h2 : (⌊(⌊q * 10 + 1 / 2⌋ : ℚ) + 1 / 2⌋ : ℤ) = ⌊q * 10 + 1 / 2⌋ := by
    rw [add_comm, Int.floor_add_int]
    norm_num
  rw [h2]

theorem roundVal_strOfOut (o : Option JNum)
    (h : o = none ∨ ∃ q, o = some (.num (round1Q q))) :
    roundVal (.str (strOfOut o)) = o := by
  rcases h with rfl | ⟨q, rfl⟩
  · rfl
  · simp only [strOfOut, roundVal, asNumber, JStr.numberOf]
    rw [round1Q_idem]

/-! ### Structure of the recompute stage -/

/-- Output value of the recompute loop for one tag, as a function of the
per-tag stored raw value `g`. -/
def routeOut (f : String → Option JNum) (b c n : ℚ) (g : String → JVal) (tag : String) :
    Option JNum :=
  match f tag with
  | none => none
  | some live => (routeStage (g tag) live b c n).1

/-- Staged writes of the recompute loop for one tag. -/
def routeSets (f : String → Option JNum) (b c n : ℚ) (g : String → JVal) (tag : String) :
    List (String × JStr) :=
  match f tag with
  | none => []
  | some live =>
    [(sampleKey tag, serializeSamples (routeStage (g tag) live b c n).2),
     (avgKey tag, strOfOut (routeStage (g tag) live b c n).1)]

theorem recomputeGo_map (f : String → Option JNum) (b c n : ℚ) (g : String → JVal) :
    ∀ tags : List String,
      recomputeGo f b c n tags (tags.map g) =
        (tags.map fun t => (t, routeOut f b c n g t),
         (tags.map (routeSets f b c n g)).flatten)
  | [] => rfl
  | tag :: ts => by
    rw [List.map_cons, recomputeGo, List.tail_cons, List.headD_cons,
      recomputeGo_map f b c n g ts]
    cases hf : f tag with
    | none => simp [routeOut, routeSets, hf]
    | some live => simp [routeOut, routeSets, hf]

theorem routeSets_keys (f : String → Option JNum) (b c n : ℚ) (g : String → JVal)
    (tag : String) (kv : String × JStr) (h : kv ∈ routeSets f b c n g tag) :
    kv.1 = sampleKey tag ∨ kv.1 = avgKey tag := by
  cases hf : f tag with
  | none => simp [routeSets, hf] at h
  | some live =>
    simp only [routeSets, hf] at h
    rcases List.mem_cons.mp h with rfl | h2
    · exact Or.inl rfl
    · rcases List.mem_cons.mp h2 with rfl | h3
      · exact Or.inr rfl
      · cases h3

theorem findLastVal_flatten_avg_none (f : String → Option JNum) (b c n : ℚ)
    (g : String → JVal) (tag : String) (ts : List String) (hnot : tag ∉ ts) :
    findLastVal ((ts.map (routeSets f b c n g)).flatten) (avgKey tag) = none := by
  apply findLastVal_eq_none
  intro kv hkv
  obtain ⟨block, hblock, hkvin⟩ := List.mem_flatten.mp hkv
  obtain ⟨t, ht, rfl⟩ := List.mem_map.mp hblock
  rcases routeSets_keys f b c n g t kv hkvin with hk | hk
  · rw [hk]
    exact fun he => avgKey_ne_sampleKey tag t he.symm
  · rw [hk]
    intro he
    exact hnot (avgKey_inj he ▸ ht)

theorem findLastVal_routeSets_avg (f : String → Option JNum) (b c n : ℚ)
    (g : String → JVal) (tag : String) (live : JNum) (hf : f tag = some live) :
    findLastVal (routeSets f b c n g tag) (avgKey tag) =
      some (strOfOut (routeOut f b c n g tag)) := by
  simp [routeSets, routeOut, hf, findLastVal]

theorem findLastVal_flatten_avg (f : String → Option JNum) (b c n : ℚ) (g : String → JVal) :
    ∀ (ts : List String) (tag : String), ts.Nodup → tag ∈ ts →
      (∀ t ∈ ts, ∃ x, f t = some x) →
      findLastVal ((ts.map (routeSets f b c n g)).flatten) (avgKey tag) =
        some (strOfOut (routeOut f b c n g tag))
  | [], tag, _, hmem, _ => by cases hmem
  | t0 :: ts, tag, hnd, hmem, hsome => by
    rw [List.map_cons, List.flatten_cons, findLastVal_append]
    rcases List.mem_cons.mp hmem with rfl | hmem2
    · rw [findLastVal_flatten_avg_none f b c n g tag ts (List.nodup_cons.mp hnd).1]
      obtain ⟨live, hlive⟩ := hsome tag (List.mem_cons_self tag ts)
      exact findLastVal_routeSets_avg f b c n g tag live hlive
    · rw [findLastVal_flatten_avg f b c n g ts tag (List.nodup_cons.mp hnd).2 hmem2
        fun t ht => hsome t (List.mem_cons_of_mem t0 ht)]

theorem cachedOut_map (g : String → JVal) :
    ∀ tags : List String, cachedOut tags (tags.map g) =
      tags.map fun t => (t, roundVal (g t))
  | [] => rfl
  | tag :: ts => by
    rw [List.map_cons, cachedOut, List.headD_cons, List.tail_cons, cachedOut_map g ts,
      List.map_cons]

/-- Shape of one recompute output value when the live speed is finite: null,
or a finite, already-rounded number. -/
theorem routeOut_shape (f : String → Option JNum) (b c n : ℚ) (g : String → JVal)
    (tag : String) (hfin : ∀ x, f tag = some x → x.isFinite = true) :
    routeOut f b c n g tag = none ∨
    ∃ q, routeOut f b c n g tag = some (.num (round1Q q)) := by
  cases hf : f tag with
  | none => exact Or.inl (by simp [routeOut, hf])
  | some live =>
    have hlf := hfin live hf
    have hall : ∀ s ∈ trimAndUpsert (parseSamples (g tag)) c ⟨b, live⟩,
        s.v.isFinite = true :=
      fun s hs => trimAndUpsert_finite (parseSamples (g tag)) c ⟨b, live⟩ hlf s hs
    rcases compute24hAvgKmh_shape (trimAndUpsert (parseSamples (g tag)) c ⟨b, live⟩) n c
        hall with hnone | ⟨q, hq⟩
    · left
      simp [routeOut, hf, routeStage, hnone]
    · right
      refine ⟨q, ?_⟩
      simp [routeOut, hf, routeStage, hq, round1]

/-- C5 (amended): starting from any store state, after one successful
refresh over a batch of finite speeds, a second refresh with the identical
batch and a timestamp in the same bucket returns the identical result map
and leaves the store untouched (its result state is exactly the state after
the first call); and — whenever the batch is nonempty — the second call sees
the processing marker equal to its own bucket, i.e. takes the cached-average
path.  (The original claim, quantified over arbitrary batches, fails for
non-finite speeds: a NaN average is stored as the string "NaN", which the
cached path reads back as null, so the second map differs; see the
counterexample.) -/
theorem getAvg24h_idempotent_same_bucket (spec : KvSpec) (st : Store)
    (live : List LiveRouteSample) (now1 now2 : ℚ)
    (out1 : List (String × Option JNum)) (st1 : Store)
    (hnf : KvNoFail spec)
    (hfin : ∀ r ∈ live, r.liveSpeedKmh.isFinite = true)
    (hb : toBucketMs now1 = toBucketMs now2)
    (h1 : getAvg24hSpeedsByRouteTag spec live now1 st = .ok (out1, st1)) :
    getAvg24hSpeedsByRouteTag spec live now2 st1 = .ok (out1, st1) ∧
    (live ≠ [] → asNumber (readVal st1 KV_LAST_BUCKET_KEY) = some (toBucketMs now2)) := by
  have hm1 := fun ks => mgetChunked_ok spec ks st hnf.mget
  have hsm := fun sets => setManyChunked_ok spec sets st hnf.set hnf.pipe
  rw [getAvg24hSpeedsByRouteTag] at h1
  simp only [kvGet, hnf.get, Bool.false_eq_true, if_false] at h1
  by_cases hlen : (dedupAcc [] (live.map LiveRouteSample.routeTag)).length = 0
  · -- empty batch: nothing read beyond the marker, nothing written
    rw [if_pos hlen] at h1
    injection h1 with hp
    injection hp with ho hs
    subst ho
    subst hs
    have hlive : live = [] := by
      rw [List.length_eq_zero] at hlen
      have := (dedupAcc_nil_iff _).mp hlen
      exact List.map_eq_nil_iff.mp this
    constructor
    · rw [getAvg24hSpeedsByRouteTag]
      simp only [kvGet, hnf.get, Bool.false_eq_true, if_false]
      rw [if_pos hlen]
    · intro hne
      exact absurd hlive hne
  · rw [if_neg hlen] at h1
    by_cases hcache : asNumber (readVal st KV_LAST_BUCKET_KEY) = some (toBucketMs now1)
    · -- first call took the cached path: no mutation
      rw [if_pos hcache, hm1] at h1
      simp only [] at h1
      injection h1 with hp
      injection hp with ho hs
      subst ho
      subst hs
      have hcond2 : asNumber (readVal st KV_LAST_BUCKET_KEY) = some (toBucketMs now2) :=
        hb ▸ hcache
      constructor
      · rw [getAvg24hSpeedsByRouteTag]
        simp only [kvGet, hnf.get, Bool.false_eq_true, if_false]
        rw [if_neg hlen, if_pos hcond2, hm1]
      · exact fun _ => hcond2
    · -- first call recomputed and persisted
      rw [if_neg hcache, hm1] at h1
      simp only [List.map_map] at h1
      rw [recomputeGo_map] at h1
      rw [hsm] at h1
      simp only [kvSet, hnf.set, Bool.false_eq_true, if_false] at h1
      injection h1 with hp
      injection hp with ho hs
      subst ho
      subst hs
      have hnd : (dedupAcc [] (live.map LiveRouteSample.routeTag)).Nodup :=
        dedupAcc_nodup _ _
      have hmemf : ∀ t ∈ dedupAcc [] (live.map LiveRouteSample.routeTag),
          ∃ x, liveByTag live t = some x := by
        intro t ht
        exact liveByTag_isSome_of_mem live t ((mem_dedupAcc _ _ t).mp ht).1
      have hlast1 : readVal
          (updateStore
            (applyPart st
              ((List.map
                (routeSets (liveByTag live) (toBucketMs now1) (qsub now1 WINDOW_MS) now1
                  (readVal st ∘ sampleKey))
                (dedupAcc [] (live.map LiveRouteSample.routeTag))).flatten))
            KV_LAST_BUCKET_KEY (.jsonOf (.num (.num (toBucketMs now1)))))
          KV_LAST_BUCKET_KEY = .str (.jsonOf (.num (.num (toBucketMs now1)))) := by
        simp [readVal, updateStore]
      have hcond2 : asNumber (readVal
          (updateStore
            (applyPart st
              ((List.map
                (routeSets (liveByTag live) (toBucketMs now1) (qsub now1 WINDOW_MS) now1
                  (readVal st ∘ sampleKey))
                (dedupAcc [] (live.map LiveRouteSample.routeTag))).flatten))
            KV_LAST_BUCKET_KEY (.jsonOf (.num (.num (toBucketMs now1)))))
          KV_LAST_BUCKET_KEY) = some (toBucketMs now2) := by
        rw [hlast1, ← hb]
        rfl
      have havg_lookup : ∀ t ∈ dedupAcc [] (live.map LiveRouteSample.routeTag),
          readVal
            (updateStore
              (applyPart st
                ((List.map
                  (routeSets (liveByTag live) (toBucketMs now1) (qsub now1 WINDOW_MS) now1
                    (readVal st ∘ sampleKey))
                  (dedupAcc [] (live.map LiveRouteSample.routeTag))).flatten))
              KV_LAST_BUCKET_KEY (.jsonOf (.num (.num (toBucketMs now1)))))
            (avgKey t) =
            .str (strOfOut (routeOut (liveByTag live) (toBucketMs now1)
              (qsub now1 WINDOW_MS) now1 (readVal st ∘ sampleKey) t)) := by
        intro t ht
        rw [readVal, updateStore]
        rw [if_neg (avgKey_ne_lastKey t)]
        rw [applyPart_lookup]
        rw [findLastVal_flatten_avg (liveByTag live) (toBucketMs now1)
          (qsub now1 WINDOW_MS) now1 (readVal st ∘ sampleKey) _ t hnd ht hmemf]
      constructor
      · rw [getAvg24hSpeedsByRouteTag]
        have hm2 := fun ks => mgetChunked_ok spec ks
          (updateStore
            (applyPart st
              ((List.map
                (routeSets (liveByTag live) (toBucketMs now1) (qsub now1 WINDOW_MS) now1
                  (readVal st ∘ sampleKey))
                (dedupAcc [] (live.map LiveRouteSample.routeTag))).flatten))
            KV_LAST_BUCKET_KEY (.jsonOf (.num (.num (toBucketMs now1)))))
          hnf.mget
        simp only [kvGet, hnf.get, Bool.false_eq_true, if_false]
        rw [if_neg hlen, if_pos hcond2, hm2]
        simp only [List.map_map]
        rw [cachedOut_map]
        congr 1
        congr 1
        apply List.map_congr_left
        intro t ht
        have hread := havg_lookup t ht
        rw [Function.comp_apply, hread]
        congr 1
        apply roundVal_strOfOut
        apply routeOut_shape
        intro x hx
        exact liveByTag_finite live t x hfin hx
      · exact fun _ => hcond2

/-- Result map of the second of two refresh calls (the second call runs on
the state left by the first); `none` when either call fails. -/
def secondRunOut (spec : KvSpec) (live : List LiveRouteSample) (n1 n2 : ℚ) (st : Store) :
    Option (List (String × Option JNum)) :=
  match getAvg24hSpeedsByRouteTag spec live n1 st with
  | .ok (_, st1) => outOfRun (getAvg24hSpeedsByRouteTag spec live n2 st1)
  | .error _ => none

/-- The concrete two-route batch of the C5 witness. -/
def c5live : List LiveRouteSample := [⟨"A", .num 17⟩, ⟨"B", .num 9⟩]

/-- C5 witness: a finite-speed batch replayed 58 seconds later inside the
same minute bucket returns the identical map. -/
theorem getAvg24h_idempotent_same_bucket_witness :
    secondRunOut specOk c5live 60001 60059 emptyStore =
      outOfRun (getAvg24hSpeedsByRouteTag specOk c5live 60001 emptyStore) := by
  cases hg : getAvg24hSpeedsByRouteTag specOk c5live 60001 emptyStore with
  | error e =>
    have hok := getAvg24h_total_aux specOk c5live 60001 emptyStore specOk_noFail
    rw [hg] at hok
    exact absurd hok (by simp [exceptOk])
  | ok p =>
    obtain ⟨o1, s1⟩ := p
    have h2 := getAvg24h_idempotent_same_bucket specOk emptyStore c5live 60001 60059 o1 s1
      specOk_noFail (by decide) (by decide) hg
    simp [secondRunOut, hg, h2.1, outOfRun]

/-- The one-route NaN batch of the C5 counterexample. -/
def c5nanLive : List LiveRouteSample := [⟨"A", .nan⟩]

/-- C5 counterexample: with a NaN live speed, the first call returns
`{A: NaN}` and persists the string "NaN", but the second call in the same
bucket reads it back through `asNumber`, which rejects non-finite values, and
returns `{A: null}` — the two result maps differ, refuting idempotence for
arbitrary reading batches. -/
theorem getAvg24h_nan_breaks_idempotence :
    outOfRun (getAvg24hSpeedsByRouteTag specOk c5nanLive 60001 emptyStore) =
      some [("A", some JNum.nan)] ∧
    secondRunOut specOk c5nanLive 60001 60002 emptyStore = some [("A", none)] ∧
    toBucketMs 60001 = toBucketMs 60002 := by
  refine ⟨by decide, by decide, by decide⟩

/-! ### Claim C2, general form -/

theorem liveByTag_mem : ∀ (live : List LiveRouteSample) (tag : String) (x : JNum),
    liveByTag live tag = some x → tag ∈ live.map LiveRouteSample.routeTag
  | [], _, _, h => by cases h
  | r :: rest, tag, x, h => by
    rw [liveByTag] at h
    cases hrec : liveByTag rest tag with
    | some v =>
      exact List.mem_cons_of_mem _ (liveByTag_mem rest tag v hrec)
    | none =>
      rw [hrec] at h
      by_cases ht : r.routeTag = tag
      · rw [List.map_cons, ht]
        exact List.mem_cons_self _ _
      · rw [if_neg ht] at h
        cases h

/-- C2 (amended): in any recompute-path refresh at a timestamp strictly
inside its bucket (`toBucketMs now < now`), every requested route whose
stored history read yields no usable samples — an absent key or an
unreadable value — is treated as having an empty history: its entry in the
returned map is the average of just the freshly inserted sample, i.e. its
current live speed rounded to one decimal, and not null; and the whole map
is computed route by route, each entry from that route's own stored value,
so all other routes compute normally, unaffected by the failed read.  (At a
bucket-boundary timestamp, `now = toBucketMs now`, the fresh sample's
representative interval is empty and such a route does return null.  The
original claim — that the affected route returns null — is refuted by the
counterexample.) -/
theorem getAvg24h_unreadable_route_returns_live (spec : KvSpec)
    (live : List LiveRouteSample) (vA now : ℚ) (st : Store) (tagA : String)
    (hnf : KvNoFail spec)
    (hlast : ¬ asNumber (readVal st KV_LAST_BUCKET_KEY) = some (toBucketMs now))
    (hAlive : liveByTag live tagA = some (.num vA))
    (hAraw : parseSamples (readVal st (sampleKey tagA)) = [])
    (hnow : toBucketMs now < now) :
    ∃ st2, getAvg24hSpeedsByRouteTag spec live now st =
      .ok ((dedupAcc [] (live.map LiveRouteSample.routeTag)).map
        (fun t => (t, routeOut (liveByTag live) (toBucketMs now) (qsub now WINDOW_MS) now
          (readVal st ∘ sampleKey) t)), st2) ∧
    routeOut (liveByTag live) (toBucketMs now) (qsub now WINDOW_MS) now
      (readVal st ∘ sampleKey) tagA = some (.num (round1Q vA)) := by
  have hm := fun ks => mgetChunked_ok spec ks st hnf.mget
  have hsm := fun sets => setManyChunked_ok spec sets st hnf.set hnf.pipe
  have hmem : tagA ∈ live.map LiveRouteSample.routeTag :=
    liveByTag_mem live tagA _ hAlive
  have hlen : ¬ (dedupAcc [] (live.map LiveRouteSample.routeTag)).length = 0 := by
    intro h0
    rw [List.length_eq_zero] at h0
    have hin := (mem_dedupAcc (live.map LiveRouteSample.routeTag) [] tagA).mpr
      ⟨hmem, by simp⟩
    rw [h0] at hin
    cases hin
  have hA : routeOut (liveByTag live) (toBucketMs now) (qsub now WINDOW_MS) now
      (readVal st ∘ sampleKey) tagA = some (.num (round1Q vA)) := by
    simp only [routeOut, hAlive, Function.comp_apply]
    exact routeStage_empty_history (readVal st (sampleKey tagA)) vA now hAraw hnow
  rw [getAvg24hSpeedsByRouteTag]
  simp only [kvGet, hnf.get, Bool.false_eq_true, if_false]
  rw [if_neg hlen, if_neg hlast, hm]
  simp only [List.map_map]
  rw [recomputeGo_map, hsm]
  simp only [kvSet, hnf.set, Bool.false_eq_true, if_false]
  exact ⟨_, rfl, hA⟩

/-- C2 witness: concrete unreadable-A store, live speeds 30 and 25, applied
through the general theorem. -/
theorem getAvg24h_unreadable_route_returns_live_witness :
    outOfRun (getAvg24hSpeedsByRouteTag specOk [⟨"A", .num 30⟩, ⟨"B", .num 25⟩]
        120001 c2exStore) =
      some [("A", some (.num (round1Q 30))),
            ("B", routeOut (liveByTag [⟨"A", .num 30⟩, ⟨"B", .num 25⟩]) (toBucketMs 120001)
              (qsub 120001 WINDOW_MS) 120001 (readVal c2exStore ∘ sampleKey) ("B"))] := by
  obtain ⟨st2, h1, h2⟩ := getAvg24h_unreadable_route_returns_live specOk
    [⟨"A", .num 30⟩, ⟨"B", .num 25⟩] 30 120001 c2exStore ("A") specOk_noFail
    (by decide) rfl (by decide) (by decide)
  have htags : dedupAcc [] (["A", "B"] : List String) = ["A", "B"] := rfl
  simp only [outOfRun, h1, htags, List.map_cons, List.map_nil, h2]
